import Mathlib

/-!
Shallow embedding of `dinein_reservation_agent.py` (restaurant table
reservation matcher): data model, allocation engine, waitlist autofill and
the no-show predictor, together with theorems checking the specification's
claims about them.

Modelling conventions:
* Python's global mutable state (`mock_tables`, `mock_waitlist`,
  `mock_guest_profiles`, and the `random` module's generator) is threaded
  explicitly as a `SysState` record.
* The shared random generator is modelled as an infinite stream
  `draws : Nat → Nat` with a cursor `didx`; each Python call into `random`
  consumes exactly one draw.  `random.randint(1000, 9999)` is modelled as
  `1000 + draw % 9000` (a surjection onto the same inclusive range), and
  the float test `random.random() < 0.1` of `predict_no_show` is modelled
  as the Boolean `draw % 10 == 0` (one draw, fixed small probability).
* Python's in-place mutation of a table object aliased inside
  `mock_tables` is modelled by carrying the table's index through the
  candidate computation (`List.enum`) and writing back with `List.set`.
* Python's stable `list.sort` with the key `0 if x.type in prefs else 1`
  is, extensionally, the stable partition: kept elements in order first,
  the rest in order after them.
* `mock_waitlist.remove(request)` removes the first element equal to the
  argument (pydantic models compare by field values); `List.erase` has the
  same behaviour on states reachable by the autofill loop, where the
  removed value is always present.
-/

namespace DineIn

/-- `GuestProfile` (source lines 22-27). -/
structure GuestProfile where
  guest_id : String
  name : String
  loyalty_status : String
  preferences : List String
  visit_history : List String
  deriving DecidableEq, Repr

/-- `ReservationRequest` (source lines 29-35). `party_size` is a Python
`int`, hence `Int`. -/
structure ReservationRequest where
  guest_id : String
  party_size : Int
  date : String
  time : String
  channel : String
  table_type : String
  deriving DecidableEq, Repr

/-- `Table` (source lines 37-42). -/
structure Table where
  table_id : String
  seats : Int
  type : String
  is_available : Bool
  reserved_slots : List String
  deriving DecidableEq, Repr

/-- `ReservationStatus` (source lines 44-49). -/
structure ReservationStatus where
  reservation_id : String
  guest_id : String
  table_id : Option String
  status : String
  reason : Option String
  deriving DecidableEq, Repr

/-- The global mutable state of the script: the table inventory
(`mock_tables`), the waitlist (`mock_waitlist`), the guest directory
(`mock_guest_profiles`, an association list standing for the dict), and
the state of the shared random generator. -/
structure SysState where
  tables : List Table
  waitlist : List ReservationRequest
  guests : List (String × GuestProfile)
  draws : Nat → Nat
  didx : Nat

/-- `is_conflict` (source lines 102-103): the slot string
`f"{date} {time}"` is already committed on the table. -/
def is_conflict (table : Table) (date time : String) : Bool :=
  table.reserved_slots.contains (date ++ " " ++ time)

/-- The candidate filter predicate of `table_optimization_agent`
(source lines 122-127): seat count, type match (or "any"), and slot
freeness.  It never reads `is_available`. -/
def eligibleTable (r : ReservationRequest) (t : Table) : Bool :=
  decide (r.party_size ≤ t.seats) &&
    (r.table_type == "any" || t.type == r.table_type) &&
    !is_conflict t r.date r.time

/-- The filtered candidate list (source lines 122-127), carrying each
table's index in `mock_tables` to model aliasing. -/
def candidatePairs (tables : List Table) (r : ReservationRequest) :
    List (Nat × Table) :=
  tables.enum.filter (fun it => eligibleTable r it.2)

/-- The stable sort by key `0 if x.type in guest.preferences else 1`
(source line 131): preferred-type candidates in original order, then the
others in original order. -/
def goldSort (prefs : List String) (l : List (Nat × Table)) :
    List (Nat × Table) :=
  l.filter (fun it => prefs.contains it.2.type) ++
    l.filter (fun it => !prefs.contains it.2.type)

/-- The candidate list after the loyalty reordering (source lines
129-131): the guest is looked up in the directory; only a guest with
`loyalty_status == "Gold"` triggers the sort. -/
def sortedCandidates (tables : List Table)
    (guests : List (String × GuestProfile)) (r : ReservationRequest) :
    List (Nat × Table) :=
  let base := candidatePairs tables r
  match guests.lookup r.guest_id with
  | some g => if g.loyalty_status == "Gold" then goldSort g.preferences base else base
  | none => base

/-- The commit on the chosen table (source lines 135-136):
`table.reserved_slots.append(slot)` and `table.is_available = False`. -/
def commitSlot (t : Table) (slot : String) : Table :=
  { t with reserved_slots := t.reserved_slots ++ [slot], is_available := false }

/-- The number produced by `random.randint(1000, 9999)` at the current
cursor. -/
def drawNum (s : SysState) : Nat :=
  1000 + s.draws s.didx % 9000

/-- `table_optimization_agent` (source lines 121-152): filter, loyalty
sort, then either commit the first candidate's slot and return a
"confirmed" status, or append the request to the waitlist and return a
"waitlisted" status. -/
def table_optimization_agent (s : SysState) (r : ReservationRequest) :
    ReservationStatus × SysState :=
  match sortedCandidates s.tables s.guests r with
  | (i, t) :: _ =>
      ({ reservation_id := "R" ++ toString (drawNum s)
         guest_id := r.guest_id
         table_id := some t.table_id
         status := "confirmed"
         reason := none },
       { s with tables := s.tables.set i (commitSlot t (r.date ++ " " ++ r.time))
                didx := s.didx + 1 })
  | [] =>
      ({ reservation_id := "W" ++ toString (drawNum s)
         guest_id := r.guest_id
         table_id := none
         status := "waitlisted"
         reason := some "No available table at requested time" },
       { s with waitlist := s.waitlist ++ [r]
                didx := s.didx + 1 })

/-- The loop body of `autofill_waitlist` (source lines 115-119), iterating
over a snapshot of the waitlist; returns the final state and the list of
statuses of promoted requests. -/
def autofillAux : List ReservationRequest → SysState →
    List ReservationStatus → SysState × List ReservationStatus
  | [], s, acc => (s, acc)
  | r :: rest, s, acc =>
      let p := table_optimization_agent s r
      if p.1.status == "confirmed" then
        autofillAux rest { p.2 with waitlist := p.2.waitlist.erase r } (acc ++ [p.1])
      else
        autofillAux rest p.2 acc

/-- `autofill_waitlist` (source lines 111-119): early return on an empty
waitlist, else one pass over the snapshot `mock_waitlist[:]`. -/
def autofill_waitlist (s : SysState) : SysState × List ReservationStatus :=
  if s.waitlist.isEmpty then (s, []) else autofillAux s.waitlist s []

/-- `predict_no_show` (source lines 105-109): `False` for an unknown
guest; for a known guest one random draw decides the Boolean.  The
function reads but never writes the inventory, waitlist and directory. -/
def predict_no_show (s : SysState) (guest_id : String) : Bool × SysState :=
  match s.guests.lookup guest_id with
  | none => (false, s)
  | some _ => (decide (s.draws s.didx % 10 = 0), { s with didx := s.didx + 1 })

/-! ## Helper lemmas about the candidate computation -/

theorem head?_filter_eq_find? {α : Type} (p : α → Bool) (l : List α) :
    (l.filter p).head? = l.find? p := by
  induction l with
  | nil => rfl
  | cons a l ih =>
      by_cases h : p a <;> simp [List.filter_cons, List.find?_cons, h, ih]

theorem mem_candidatePairs {tables : List Table} {r : ReservationRequest}
    {i : Nat} {t : Table} :
    (i, t) ∈ candidatePairs tables r ↔
      tables[i]? = some t ∧ eligibleTable r t = true := by
  simp [candidatePairs, List.mem_filter, List.mk_mem_enum_iff_getElem?]

theorem candidatePairs_eq_nil_iff {tables : List Table} {r : ReservationRequest} :
    candidatePairs tables r = [] ↔ ∀ t ∈ tables, eligibleTable r t = false := by
  constructor
  · intro h t ht
    obtain ⟨i, hi⟩ := List.mem_iff_getElem?.1 ht
    by_contra hne
    have helig : eligibleTable r t = true := by
      cases he : eligibleTable r t
      · exact absurd he hne
      · rfl
    have : (i, t) ∈ candidatePairs tables r := mem_candidatePairs.2 ⟨hi, helig⟩
    simp [h] at this
  · intro h
    apply List.filter_eq_nil_iff.2
    intro it hit
    have ht : tables[it.1]? = some it.2 := List.mem_enum_iff_getElem?.1 hit
    have : it.2 ∈ tables := List.getElem?_mem ht
    simp [h it.2 this]

theorem mem_of_mem_goldSort {prefs : List String} {l : List (Nat × Table)}
    {it : Nat × Table} (h : it ∈ goldSort prefs l) : it ∈ l := by
  rcases List.mem_append.1 h with h' | h' <;> exact (List.mem_filter.1 h').1

theorem goldSort_eq_nil_iff {prefs : List String} {l : List (Nat × Table)} :
    goldSort prefs l = [] ↔ l = [] := by
  constructor
  · intro h
    cases l with
    | nil => rfl
    | cons a l =>
        exfalso
        have ha : a ∈ goldSort prefs (a :: l) := by
          by_cases hp : prefs.contains a.2.type
          · exact List.mem_append.2 (Or.inl (List.mem_filter.2 ⟨List.mem_cons_self a l, by simpa using hp⟩))
          · exact List.mem_append.2 (Or.inr (List.mem_filter.2 ⟨List.mem_cons_self a l, by simpa using hp⟩))
        simp [h] at ha
  · intro h
    simp [goldSort, h]

theorem mem_of_mem_sortedCandidates {tables : List Table}
    {guests : List (String × GuestProfile)} {r : ReservationRequest}
    {it : Nat × Table} (h : it ∈ sortedCandidates tables guests r) :
    it ∈ candidatePairs tables r := by
  unfold sortedCandidates at h
  cases hg : guests.lookup r.guest_id with
  | none => simpa [hg] using h
  | some g =>
      rw [hg] at h
      by_cases hl : g.loyalty_status == "Gold"
      · simp only [hl, if_pos] at h
        exact mem_of_mem_goldSort h
      · simpa [hl] using h

theorem sortedCandidates_eq_nil_iff {tables : List Table}
    {guests : List (String × GuestProfile)} {r : ReservationRequest} :
    sortedCandidates tables guests r = [] ↔ candidatePairs tables r = [] := by
  unfold sortedCandidates
  cases hg : guests.lookup r.guest_id with
  | none => simp
  | some g =>
      by_cases hl : g.loyalty_status == "Gold"
      · simp [hl, goldSort_eq_nil_iff]
      · simp [hl]

/-! ## Unfolding equations for the allocation engine -/

theorem agent_eq_confirmed {s : SysState} {r : ReservationRequest}
    {i : Nat} {t : Table} {rest : List (Nat × Table)}
    (h : sortedCandidates s.tables s.guests r = (i, t) :: rest) :
    table_optimization_agent s r =
      ({ reservation_id := "R" ++ toString (drawNum s)
         guest_id := r.guest_id
         table_id := some t.table_id
         status := "confirmed"
         reason := none },
       { s with tables := s.tables.set i (commitSlot t (r.date ++ " " ++ r.time))
                didx := s.didx + 1 }) := by
  unfold table_optimization_agent
  rw [h]

theorem agent_eq_waitlisted {s : SysState} {r : ReservationRequest}
    (h : sortedCandidates s.tables s.guests r = []) :
    table_optimization_agent s r =
      ({ reservation_id := "W" ++ toString (drawNum s)
         guest_id := r.guest_id
         table_id := none
         status := "waitlisted"
         reason := some "No available table at requested time" },
       { s with waitlist := s.waitlist ++ [r]
                didx := s.didx + 1 }) := by
  unfold table_optimization_agent
  rw [h]

theorem agent_status_confirmed_iff {s : SysState} {r : ReservationRequest} :
    (table_optimization_agent s r).1.status = "confirmed" ↔
      candidatePairs s.tables r ≠ [] := by
  constructor
  · intro h hnil
    rw [agent_eq_waitlisted (sortedCandidates_eq_nil_iff.2 hnil)] at h
    simp at h
  · intro hnil
    cases hsc : sortedCandidates s.tables s.guests r with
    | nil => exact absurd (sortedCandidates_eq_nil_iff.1 hsc) hnil
    | cons it rest => rw [agent_eq_confirmed (by rw [hsc])]

/-! ## Inventory extension: reserved slots only grow -/

/-- One table extends another: identifier, seats and type are unchanged and
every committed slot is still committed. -/
def tableExt (t t' : Table) : Prop :=
  t'.table_id = t.table_id ∧ t'.seats = t.seats ∧ t'.type = t.type ∧
    ∀ x ∈ t.reserved_slots, x ∈ t'.reserved_slots

/-- Pointwise extension of a whole inventory. -/
def tablesExt (T T' : List Table) : Prop :=
  List.Forall₂ tableExt T T'

theorem tableExt_refl (t : Table) : tableExt t t :=
  ⟨rfl, rfl, rfl, fun _ hx => hx⟩

theorem tableExt_trans {t u v : Table} (h : tableExt t u) (h' : tableExt u v) :
    tableExt t v :=
  ⟨h'.1.trans h.1, h'.2.1.trans h.2.1, h'.2.2.1.trans h.2.2.1,
    fun x hx => h'.2.2.2 x (h.2.2.2 x hx)⟩

theorem tablesExt_refl (T : List Table) : tablesExt T T := by
  induction T with
  | nil => exact List.Forall₂.nil
  | cons a T ih => exact List.Forall₂.cons (tableExt_refl a) ih

theorem tablesExt_trans {T U V : List Table} (h : tablesExt T U)
    (h' : tablesExt U V) : tablesExt T V := by
  induction h generalizing V with
  | nil => cases h'; exact List.Forall₂.nil
  | cons hab hl ih =>
      cases h' with
      | cons hbc hl' => exact List.Forall₂.cons (tableExt_trans hab hbc) (ih hl')

theorem tableExt_commitSlot (t : Table) (slot : String) :
    tableExt t (commitSlot t slot) :=
  ⟨rfl, rfl, rfl, fun _ hx => List.mem_append.2 (Or.inl hx)⟩

theorem tablesExt_set {T : List Table} {i : Nat} {t v : Table}
    (hi : T[i]? = some t) (hv : tableExt t v) : tablesExt T (T.set i v) := by
  induction T generalizing i with
  | nil => simp at hi
  | cons a T ih =>
      cases i with
      | zero =>
          simp only [List.getElem?_cons_zero, Option.some.injEq] at hi
          subst hi
          exact List.Forall₂.cons hv (tablesExt_refl T)
      | succ n =>
          simp only [List.getElem?_cons_succ] at hi
          exact List.Forall₂.cons (tableExt_refl a) (ih hi)

theorem eligible_false_mono {r : ReservationRequest} {t t' : Table}
    (h : tableExt t t') (he : eligibleTable r t = false) :
    eligibleTable r t' = false := by
  cases he' : eligibleTable r t'
  · rfl
  · exfalso
    unfold eligibleTable at he he'
    obtain ⟨hid, hseats, htype, hslots⟩ := h
    rw [hseats, htype] at he'
    simp only [Bool.and_eq_true, Bool.and_eq_false_iff, Bool.not_eq_true'] at he he'
    rcases he with h1 | h2
    · rcases h1 with h1 | h1
      · rw [h1] at he'; simp at he'
      · rw [h1] at he'; simp at he'
    · have hc' : is_conflict t' r.date r.time = false := he'.2
      have hc : is_conflict t r.date r.time = true := by
        cases hcc : is_conflict t r.date r.time
        · rw [hcc] at h2; simp at h2
        · rfl
      have hmem : (r.date ++ " " ++ r.time) ∈ t.reserved_slots := by
        unfold is_conflict at hc; simpa using hc
      have hmem' : (r.date ++ " " ++ r.time) ∉ t'.reserved_slots := by
        unfold is_conflict at hc'; simpa using hc'
      exact hmem' (hslots _ hmem)

theorem candidatePairs_nil_mono {T T' : List Table} {r : ReservationRequest}
    (h : tablesExt T T') (hnil : candidatePairs T r = []) :
    candidatePairs T' r = [] := by
  rw [candidatePairs_eq_nil_iff] at hnil ⊢
  intro t' ht'
  obtain ⟨i, hi⟩ := List.mem_iff_getElem?.1 ht'
  obtain ⟨hlen, hget⟩ := List.forall₂_iff_get.1 h
  have hilt' : i < T'.length := (List.getElem?_eq_some.1 hi).1
  have hilt : i < T.length := by omega
  have hrel : tableExt (T.get ⟨i, hilt⟩) (T'.get ⟨i, hilt'⟩) := hget i hilt hilt'
  have hval : T'.get ⟨i, hilt'⟩ = t' := by
    have h1 : T'[i]? = some (T'.get ⟨i, hilt'⟩) := by
      simp [List.getElem?_eq_getElem hilt']
    rw [hi] at h1
    exact (Option.some.injEq _ _ ▸ h1).symm
  have hfalse : eligibleTable r (T.get ⟨i, hilt⟩) = false :=
    hnil _ (List.get_mem T i hilt)
  rw [← hval]
  exact eligible_false_mono hrel hfalse

/-! ## Concrete inputs used by the example runs below -/

def tWindow : Table :=
  { table_id := "T1", seats := 2, type := "window", is_available := true, reserved_slots := [] }

def tBooth : Table :=
  { table_id := "T2", seats := 4, type := "booth", is_available := true, reserved_slots := [] }

def reqAny : ReservationRequest :=
  { guest_id := "G1", party_size := 2, date := "2025-07-15", time := "19:00",
    channel := "web", table_type := "any" }

def invC1 : SysState :=
  { tables := [tWindow, tBooth], waitlist := [], guests := [], draws := fun _ => 0, didx := 0 }

def invEmpty : SysState :=
  { tables := [], waitlist := [], guests := [], draws := fun _ => 0, didx := 0 }

def invWaitOne : SysState :=
  { tables := [], waitlist := [reqAny], guests := [], draws := fun _ => 0, didx := 0 }

/-! ## C1 -/

/-- C1: whenever some table satisfies the capacity, type and freeness
constraints of the request, `table_optimization_agent` returns a
"confirmed" outcome whose table identifier names a table satisfying all
three constraints, and immediately afterwards that table reports the
request's (date, time) slot as not free via `is_conflict`. -/
theorem allocate_confirmed_of_eligible (s : SysState) (r : ReservationRequest)
    (h : ∃ t ∈ s.tables, eligibleTable r t = true) :
    (table_optimization_agent s r).1.status = "confirmed" ∧
    ∃ t ∈ s.tables, eligibleTable r t = true ∧
      (table_optimization_agent s r).1.table_id = some t.table_id ∧
      ∃ t' ∈ (table_optimization_agent s r).2.tables,
        t'.table_id = t.table_id ∧ is_conflict t' r.date r.time = true := by
  obtain ⟨t, ht, helig⟩ := h
  have hne : candidatePairs s.tables r ≠ [] := by
    intro hnil
    have := candidatePairs_eq_nil_iff.1 hnil t ht
    simp [helig] at this
  cases hsc : sortedCandidates s.tables s.guests r with
  | nil => exact absurd (sortedCandidates_eq_nil_iff.1 hsc) hne
  | cons it rest =>
      obtain ⟨i, t0⟩ := it
      have hmem : (i, t0) ∈ candidatePairs s.tables r :=
        mem_of_mem_sortedCandidates (by rw [hsc]; exact List.mem_cons_self _ _)
      obtain ⟨hi, helig0⟩ := mem_candidatePairs.1 hmem
      have hilt : i < s.tables.length := (List.getElem?_eq_some.1 hi).1
      rw [agent_eq_confirmed hsc]
      refine ⟨rfl, t0, List.getElem?_mem hi, helig0, rfl, ?_⟩
      refine ⟨commitSlot t0 (r.date ++ " " ++ r.time), ?_, rfl, ?_⟩
      · exact List.getElem?_mem (List.getElem?_set_eq_of_lt _ hilt)
      · simp [is_conflict, commitSlot]

/-- Witness for C1 at a concrete two-table inventory. -/
theorem allocate_confirmed_of_eligible_witness :
    (table_optimization_agent invC1 reqAny).1.status = "confirmed" ∧
    ∃ t ∈ invC1.tables, eligibleTable reqAny t = true ∧
      (table_optimization_agent invC1 reqAny).1.table_id = some t.table_id ∧
      ∃ t' ∈ (table_optimization_agent invC1 reqAny).2.tables,
        t'.table_id = t.table_id ∧ is_conflict t' reqAny.date reqAny.time = true :=
  allocate_confirmed_of_eligible invC1 reqAny (by decide)

/-! ## C9 -/

/-- C9: a call that returns a "waitlisted" outcome leaves every table of
the inventory (reserved slots and availability flags) and the guest
directory untouched; the only data-model change is appending the request
to the waitlist once. -/
theorem allocate_waitlisted_frame (s : SysState) (r : ReservationRequest)
    (h : (table_optimization_agent s r).1.status = "waitlisted") :
    (table_optimization_agent s r).2.tables = s.tables ∧
    (table_optimization_agent s r).2.waitlist = s.waitlist ++ [r] ∧
    (table_optimization_agent s r).2.guests = s.guests := by
  cases hsc : sortedCandidates s.tables s.guests r with
  | nil => rw [agent_eq_waitlisted hsc]; exact ⟨rfl, rfl, rfl⟩
  | cons it rest =>
      obtain ⟨i, t⟩ := it
      rw [agent_eq_confirmed hsc] at h
      simp at h

/-- Witness for C9 at an empty inventory. -/
theorem allocate_waitlisted_frame_witness :
    (table_optimization_agent invEmpty reqAny).2.tables = invEmpty.tables ∧
    (table_optimization_agent invEmpty reqAny).2.waitlist = invEmpty.waitlist ++ [reqAny] ∧
    (table_optimization_agent invEmpty reqAny).2.guests = invEmpty.guests :=
  allocate_waitlisted_frame invEmpty reqAny (by decide)

/-! ## C2 -/

/-- C2 counterexample: at a concrete request with no eligible table the
outcome is "waitlisted", but its reason is the capitalized string
"No available table at requested time", not the claimed lowercase
"no available table at requested time". -/
theorem waitlisted_reason_capitalization_cex :
    (table_optimization_agent invEmpty reqAny).1.status = "waitlisted" ∧
    (table_optimization_agent invEmpty reqAny).1.reason ≠
      some "no available table at requested time" ∧
    (table_optimization_agent invEmpty reqAny).1.reason =
      some "No available table at requested time" := by decide

/-- C2 (amended): when no table satisfies the constraints the outcome is
"waitlisted" with no table identifier and reason
"No available table at requested time" (capitalized, unlike the claim),
and the request is appended to the waitlist exactly once: its multiplicity
there grows by one. -/
theorem allocate_waitlisted_amended (s : SysState) (r : ReservationRequest)
    (h : ∀ t ∈ s.tables, eligibleTable r t = false) :
    (table_optimization_agent s r).1.status = "waitlisted" ∧
    (table_optimization_agent s r).1.table_id = none ∧
    (table_optimization_agent s r).1.reason =
      some "No available table at requested time" ∧
    (table_optimization_agent s r).2.waitlist = s.waitlist ++ [r] ∧
    (table_optimization_agent s r).2.waitlist.count r = s.waitlist.count r + 1 := by
  have hnil : sortedCandidates s.tables s.guests r = [] :=
    sortedCandidates_eq_nil_iff.2 (candidatePairs_eq_nil_iff.2 h)
  rw [agent_eq_waitlisted hnil]
  refine ⟨rfl, rfl, rfl, rfl, ?_⟩
  simp [List.count_append]

/-- Witness for the amended C2 at an empty inventory. -/
theorem allocate_waitlisted_amended_witness :
    (table_optimization_agent invEmpty reqAny).1.status = "waitlisted" ∧
    (table_optimization_agent invEmpty reqAny).1.table_id = none ∧
    (table_optimization_agent invEmpty reqAny).1.reason =
      some "No available table at requested time" ∧
    (table_optimization_agent invEmpty reqAny).2.waitlist =
      invEmpty.waitlist ++ [reqAny] ∧
    (table_optimization_agent invEmpty reqAny).2.waitlist.count reqAny =
      invEmpty.waitlist.count reqAny + 1 :=
  allocate_waitlisted_amended invEmpty reqAny (by decide)

/-! ## C3 -/

/-- C3 (observed code behaviour at the failing input): one autofill pass
over the waitlist `[reqAny]` with an empty inventory promotes nothing, yet
afterwards the queue holds the request twice — the re-allocation attempt
inside the pass appends it again — contradicting the claim that
non-promoted requests remain exactly once in FIFO order. -/
theorem autofill_duplicates_nonpromoted :
    (autofill_waitlist invWaitOne).1.waitlist = [reqAny, reqAny] ∧
    (autofill_waitlist invWaitOne).2 = [] := by decide

/-! ## C4: autofill promotes nothing on a second pass -/

theorem count_append_one {α : Type} [BEq α] (l : List α) (a v : α) :
    (l ++ [a]).count v = l.count v + (if a == v then 1 else 0) := by
  simp [List.count_append, List.count_cons]

theorem autofillAux_step_fail {s : SysState} {r : ReservationRequest}
    (hsc : sortedCandidates s.tables s.guests r = [])
    (rest : List ReservationRequest) (acc : List ReservationStatus) :
    autofillAux (r :: rest) s acc =
      autofillAux rest
        { s with waitlist := s.waitlist ++ [r], didx := s.didx + 1 } acc := by
  simp only [autofillAux]
  rw [agent_eq_waitlisted hsc]
  simp

theorem autofillAux_step_confirm {s : SysState} {r : ReservationRequest}
    {i : Nat} {t : Table} {rest' : List (Nat × Table)}
    (hsc : sortedCandidates s.tables s.guests r = (i, t) :: rest')
    (rest : List ReservationRequest) (acc : List ReservationStatus) :
    autofillAux (r :: rest) s acc =
      autofillAux rest
        { s with tables := s.tables.set i (commitSlot t (r.date ++ " " ++ r.time)),
                 waitlist := s.waitlist.erase r,
                 didx := s.didx + 1 }
        (acc ++ [(table_optimization_agent s r).1]) := by
  simp only [autofillAux]
  rw [agent_eq_confirmed hsc]
  simp

theorem allocate_tablesExt (s : SysState) (r : ReservationRequest) :
    tablesExt s.tables (table_optimization_agent s r).2.tables := by
  cases hsc : sortedCandidates s.tables s.guests r with
  | nil => rw [agent_eq_waitlisted hsc]; exact tablesExt_refl _
  | cons it rest =>
      obtain ⟨i, t⟩ := it
      have hmem : (i, t) ∈ candidatePairs s.tables r :=
        mem_of_mem_sortedCandidates (by rw [hsc]; exact List.mem_cons_self _ _)
      obtain ⟨hi, _⟩ := mem_candidatePairs.1 hmem
      rw [agent_eq_confirmed hsc]
      exact tablesExt_set hi (tableExt_commitSlot t _)

/-- The central invariant of one autofill pass: provided every request
that is queued more often than it still has to be scanned has already
failed against the current inventory, at the end of the pass the
inventory has only grown and every request still queued has no candidate
table. -/
theorem autofillAux_inv (l : List ReservationRequest) :
    ∀ (s : SysState) (acc : List ReservationStatus),
    (∀ v : ReservationRequest, l.count v ≤ s.waitlist.count v) →
    (∀ v : ReservationRequest, l.count v < s.waitlist.count v →
      candidatePairs s.tables v = []) →
    tablesExt s.tables (autofillAux l s acc).1.tables ∧
    ∀ v : ReservationRequest, 0 < (autofillAux l s acc).1.waitlist.count v →
      candidatePairs (autofillAux l s acc).1.tables v = [] := by
  induction l with
  | nil =>
      intro s acc hB hH
      exact ⟨tablesExt_refl _, fun v hv => hH v (by simpa using hv)⟩
  | cons r rest ih =>
      intro s acc hB hH
      by_cases hc : candidatePairs s.tables r = []
      · -- the head request fails and is re-appended to the queue
        have hsc : sortedCandidates s.tables s.guests r = [] :=
          sortedCandidates_eq_nil_iff.2 hc
        rw [autofillAux_step_fail hsc]
        refine ih { s with waitlist := s.waitlist ++ [r], didx := s.didx + 1 } acc ?_ ?_
        · intro v
          have hB1 := hB v
          rw [List.count_cons] at hB1
          dsimp only
          rw [count_append_one]
          by_cases hv : r = v <;> simp [hv] at hB1 ⊢ <;> omega
        · intro v hlt
          dsimp only at hlt ⊢
          rw [count_append_one] at hlt
          by_cases hv : r = v
          · subst hv; exact hc
          · apply hH v
            rw [List.count_cons]
            simp [hv] at hlt ⊢
            omega
      · -- the head request is confirmed: a slot is committed and the first
        -- matching queue entry is removed
        cases hsc : sortedCandidates s.tables s.guests r with
        | nil => exact absurd (sortedCandidates_eq_nil_iff.1 hsc) hc
        | cons it rest' =>
            obtain ⟨i, t⟩ := it
            have hmem : (i, t) ∈ candidatePairs s.tables r :=
              mem_of_mem_sortedCandidates (by rw [hsc]; exact List.mem_cons_self _ _)
            obtain ⟨hi, _⟩ := mem_candidatePairs.1 hmem
            have hext : tablesExt s.tables
                (s.tables.set i (commitSlot t (r.date ++ " " ++ r.time))) :=
              tablesExt_set hi (tableExt_commitSlot t _)
            rw [autofillAux_step_confirm hsc]
            have hres := ih
              { s with tables := s.tables.set i (commitSlot t (r.date ++ " " ++ r.time)),
                       waitlist := s.waitlist.erase r,
                       didx := s.didx + 1 }
              (acc ++ [(table_optimization_agent s r).1])
              (by
                intro v
                have hB1 := hB v
                rw [List.count_cons] at hB1
                dsimp only
                by_cases hv : r = v
                · subst hv
                  rw [List.count_erase_self]
                  simp at hB1
                  omega
                · rw [List.count_erase_of_ne (fun he => hv he.symm)]
                  simp [hv] at hB1
                  omega)
              (by
                intro v hlt
                dsimp only at hlt ⊢
                apply candidatePairs_nil_mono hext
                apply hH v
                rw [List.count_cons]
                by_cases hv : r = v
                · subst hv
                  rw [List.count_erase_self] at hlt
                  simp
                  omega
                · rw [List.count_erase_of_ne (fun he => hv he.symm)] at hlt
                  simp [hv]
                  omega)
            exact ⟨tablesExt_trans hext hres.1, hres.2⟩

/-- If every queued request already fails against the current inventory,
the pass promotes nothing and leaves the inventory unchanged. -/
theorem autofillAux_all_fail (l : List ReservationRequest) :
    ∀ (s : SysState) (acc : List ReservationStatus),
    (∀ v ∈ l, candidatePairs s.tables v = []) →
    (autofillAux l s acc).2 = acc ∧ (autofillAux l s acc).1.tables = s.tables := by
  induction l with
  | nil => intro s acc _; exact ⟨rfl, rfl⟩
  | cons r rest ih =>
      intro s acc h
      have hsc : sortedCandidates s.tables s.guests r = [] :=
        sortedCandidates_eq_nil_iff.2 (h r (List.mem_cons_self _ _))
      rw [autofillAux_step_fail hsc]
      exact ih _ _ (fun v hv => h v (List.mem_cons_of_mem _ hv))

/-- C4: autofill is idempotent with respect to promotions: running
`autofill_waitlist` twice in a row from any state promotes no request to
"confirmed" during the second run (the second run's promotion list is
empty). -/
theorem autofill_idempotent_promotions (s : SysState) :
    (autofill_waitlist (autofill_waitlist s).1).2 = [] := by
  have key : ∀ u : SysState,
      (∀ v : ReservationRequest, 0 < u.waitlist.count v →
        candidatePairs u.tables v = []) →
      (autofill_waitlist u).2 = [] := by
    intro u hu
    unfold autofill_waitlist
    by_cases h0 : u.waitlist.isEmpty = true
    · rw [if_pos h0]
    · rw [if_neg h0]
      exact (autofillAux_all_fail u.waitlist u []
        (fun v hv => hu v (List.count_pos_iff.2 hv))).1
  have hfirst : ∀ v : ReservationRequest,
      0 < (autofill_waitlist s).1.waitlist.count v →
      candidatePairs (autofill_waitlist s).1.tables v = [] := by
    unfold autofill_waitlist
    by_cases h0 : s.waitlist.isEmpty = true
    · rw [if_pos h0]
      intro v hv
      have he : s.waitlist = [] := List.isEmpty_iff.1 h0
      rw [he] at hv
      simp at hv
    · rw [if_neg h0]
      exact (autofillAux_inv s.waitlist s []
        (fun v => le_refl _) (fun v hlt => absurd hlt (lt_irrefl _))).2
  exact key _ hfirst

/-! ## C5: loyalty preference boost -/

theorem head?_goldSort (prefs : List String) (l : List (Nat × Table)) :
    (goldSort prefs l).head? =
      match l.find? (fun it => prefs.contains it.2.type) with
      | some it => some it
      | none => l.head? := by
  unfold goldSort
  rw [List.head?_append, head?_filter_eq_find?]
  cases hf : l.find? (fun it => prefs.contains it.2.type) with
  | some it => simp
  | none =>
      simp only [Option.none_or]
      rw [head?_filter_eq_find?]
      cases l with
      | nil => rfl
      | cons a l =>
          have ha : ¬ prefs.contains a.2.type = true :=
            List.find?_eq_none.1 hf a (List.mem_cons_self a l)
          rw [List.find?_cons_of_pos _ (by simpa using ha)]
          rfl

/-- Modelled from the spec's selection rule (§4.2 steps 2-3 and the edge
cases): a Gold guest found in the directory gets the first candidate, in
original inventory order, whose type is in the guest's preference list,
falling back to the first candidate overall; an absent or non-Gold guest
gets the first candidate in original inventory order. -/
def specSelectedTableId (tables : List Table)
    (guests : List (String × GuestProfile)) (r : ReservationRequest) :
    Option String :=
  let cands := candidatePairs tables r
  match guests.lookup r.guest_id with
  | some g =>
      if g.loyalty_status == "Gold" then
        match cands.find? (fun it => g.preferences.contains it.2.type) with
        | some it => some it.2.table_id
        | none => cands.head?.map (fun it => it.2.table_id)
      else cands.head?.map (fun it => it.2.table_id)
  | none => cands.head?.map (fun it => it.2.table_id)

theorem agent_table_id_eq_head (s : SysState) (r : ReservationRequest) :
    (table_optimization_agent s r).1.table_id =
      (sortedCandidates s.tables s.guests r).head?.map (fun it => it.2.table_id) := by
  cases hsc : sortedCandidates s.tables s.guests r with
  | nil => rw [agent_eq_waitlisted hsc]; rfl
  | cons it rest =>
      obtain ⟨i, t⟩ := it
      rw [agent_eq_confirmed hsc]; rfl

/-- C5: the loyalty reordering of the candidate list is a permutation of
the plain filtered candidates, and the selected table identifier is
exactly the one the spec's rule picks: for a directory-listed Gold guest
the first candidate in original inventory order whose type is preferred
(falling back to the overall first candidate), and for an absent or
non-Gold guest the first candidate in original inventory order. -/
theorem gold_preference_selection (s : SysState) (r : ReservationRequest) :
    (sortedCandidates s.tables s.guests r).Perm (candidatePairs s.tables r) ∧
    (table_optimization_agent s r).1.table_id =
      specSelectedTableId s.tables s.guests r := by
  constructor
  · unfold sortedCandidates
    cases hg : s.guests.lookup r.guest_id with
    | none => exact List.Perm.refl _
    | some g =>
        by_cases hl : g.loyalty_status == "Gold"
        · simp only [hl, if_pos]
          exact List.filter_append_perm _ _
        · simp only [hl, if_neg, Bool.false_eq_true, not_false_iff]
          exact List.Perm.refl _
  · rw [agent_table_id_eq_head]
    unfold sortedCandidates specSelectedTableId
    cases hg : s.guests.lookup r.guest_id with
    | none => rfl
    | some g =>
        by_cases hl : g.loyalty_status == "Gold"
        · simp only [hl, if_pos]
          rw [head?_goldSort]
          cases hf : (candidatePairs s.tables r).find?
              (fun it => g.preferences.contains it.2.type) with
          | some it => rfl
          | none => rfl
        · simp only [hl, if_neg, Bool.false_eq_true, not_false_iff]

/-! ## C6: reserved-slot sets stay duplicate-free -/

theorem nodup_set_commit {tables : List Table} {i : Nat} {t : Table}
    {r : ReservationRequest} (hi : tables[i]? = some t)
    (helig : eligibleTable r t = true)
    (h : ∀ u ∈ tables, u.reserved_slots.Nodup) :
    ∀ u ∈ tables.set i (commitSlot t (r.date ++ " " ++ r.time)),
      u.reserved_slots.Nodup := by
  intro u hu
  rcases List.mem_or_eq_of_mem_set hu with hmem | heq
  · exact h u hmem
  · subst heq
    have hnd : t.reserved_slots.Nodup := h t (List.getElem?_mem hi)
    have hnc : is_conflict t r.date r.time = false := by
      unfold eligibleTable at helig
      simp only [Bool.and_eq_true, Bool.not_eq_true'] at helig
      exact helig.2
    have hnm : (r.date ++ " " ++ r.time) ∉ t.reserved_slots := by
      unfold is_conflict at hnc
      simpa using hnc
    simp [commitSlot, List.nodup_append, hnd, hnm]

theorem allocate_nodup (s : SysState) (r : ReservationRequest)
    (h : ∀ u ∈ s.tables, u.reserved_slots.Nodup) :
    ∀ u ∈ (table_optimization_agent s r).2.tables, u.reserved_slots.Nodup := by
  cases hsc : sortedCandidates s.tables s.guests r with
  | nil => rw [agent_eq_waitlisted hsc]; exact h
  | cons it rest =>
      obtain ⟨i, t⟩ := it
      have hmem : (i, t) ∈ candidatePairs s.tables r :=
        mem_of_mem_sortedCandidates (by rw [hsc]; exact List.mem_cons_self _ _)
      obtain ⟨hi, helig⟩ := mem_candidatePairs.1 hmem
      rw [agent_eq_confirmed hsc]
      exact nodup_set_commit hi helig h

theorem autofillAux_nodup (l : List ReservationRequest) :
    ∀ (s : SysState) (acc : List ReservationStatus),
    (∀ u ∈ s.tables, u.reserved_slots.Nodup) →
    ∀ u ∈ (autofillAux l s acc).1.tables, u.reserved_slots.Nodup := by
  induction l with
  | nil => intro s acc h; exact h
  | cons r rest ih =>
      intro s acc h
      cases hsc : sortedCandidates s.tables s.guests r with
      | nil =>
          rw [autofillAux_step_fail hsc]
          exact ih _ _ h
      | cons it rest' =>
          obtain ⟨i, t⟩ := it
          have hmem : (i, t) ∈ candidatePairs s.tables r :=
            mem_of_mem_sortedCandidates (by rw [hsc]; exact List.mem_cons_self _ _)
          obtain ⟨hi, helig⟩ := mem_candidatePairs.1 hmem
          rw [autofillAux_step_confirm hsc]
          exact ih _ _ (nodup_set_commit hi helig h)

theorem autofillAux_tablesExt (l : List ReservationRequest) :
    ∀ (s : SysState) (acc : List ReservationStatus),
    tablesExt s.tables (autofillAux l s acc).1.tables := by
  induction l with
  | nil => intro s acc; exact tablesExt_refl _
  | cons r rest ih =>
      intro s acc
      cases hsc : sortedCandidates s.tables s.guests r with
      | nil =>
          rw [autofillAux_step_fail hsc]
          exact ih { s with waitlist := s.waitlist ++ [r], didx := s.didx + 1 } acc
      | cons it rest' =>
          obtain ⟨i, t⟩ := it
          have hmem : (i, t) ∈ candidatePairs s.tables r :=
            mem_of_mem_sortedCandidates (by rw [hsc]; exact List.mem_cons_self _ _)
          obtain ⟨hi, _⟩ := mem_candidatePairs.1 hmem
          rw [autofillAux_step_confirm hsc]
          exact tablesExt_trans (tablesExt_set hi (tableExt_commitSlot t _))
            (ih { s with tables := s.tables.set i (commitSlot t (r.date ++ " " ++ r.time)),
                         waitlist := s.waitlist.erase r, didx := s.didx + 1 }
                (acc ++ [(table_optimization_agent s r).1]))

theorem autofill_tablesExt (s : SysState) :
    tablesExt s.tables (autofill_waitlist s).1.tables := by
  unfold autofill_waitlist
  by_cases h0 : s.waitlist.isEmpty = true
  · rw [if_pos h0]; exact tablesExt_refl _
  · rw [if_neg h0]; exact autofillAux_tablesExt s.waitlist s []

/-- C6: if every table's committed-slot list is duplicate-free, it stays
duplicate-free across an allocation and across an autofill pass; both
operations only extend the committed slots (so a committed slot persists);
and a table whose slots already contain the request's (date, time) is
ineligible for any request at that slot. -/
theorem reserved_slots_invariant (s : SysState) (r : ReservationRequest)
    (h : ∀ u ∈ s.tables, u.reserved_slots.Nodup) :
    (∀ u ∈ (table_optimization_agent s r).2.tables, u.reserved_slots.Nodup) ∧
    (∀ u ∈ (autofill_waitlist s).1.tables, u.reserved_slots.Nodup) ∧
    tablesExt s.tables (table_optimization_agent s r).2.tables ∧
    tablesExt s.tables (autofill_waitlist s).1.tables ∧
    (∀ u ∈ s.tables, is_conflict u r.date r.time = true →
      eligibleTable r u = false) := by
  refine ⟨allocate_nodup s r h, ?_, allocate_tablesExt s r, autofill_tablesExt s, ?_⟩
  · unfold autofill_waitlist
    by_cases h0 : s.waitlist.isEmpty = true
    · rw [if_pos h0]; exact h
    · rw [if_neg h0]; exact autofillAux_nodup s.waitlist s [] h
  · intro u _ hc
    unfold eligibleTable
    rw [hc]
    simp

/-- Witness for C6 at a concrete two-table inventory. -/
theorem reserved_slots_invariant_witness :
    (∀ u ∈ (table_optimization_agent invC1 reqAny).2.tables, u.reserved_slots.Nodup) ∧
    (∀ u ∈ (autofill_waitlist invC1).1.tables, u.reserved_slots.Nodup) ∧
    tablesExt invC1.tables (table_optimization_agent invC1 reqAny).2.tables ∧
    tablesExt invC1.tables (autofill_waitlist invC1).1.tables ∧
    (∀ u ∈ invC1.tables, is_conflict u reqAny.date reqAny.time = true →
      eligibleTable reqAny u = false) :=
  reserved_slots_invariant invC1 reqAny (by decide)

/-! ## C7: outcome identifiers -/

/-- C7 counterexample: with the random stream constantly 0, two distinct
allocation attempts — they confirm different tables — are assigned the
same outcome identifier "R1000", so identifiers are not unique. -/
theorem reservation_id_collision_cex :
    (table_optimization_agent invC1 reqAny).1.reservation_id =
      (table_optimization_agent (table_optimization_agent invC1 reqAny).2 reqAny).1.reservation_id ∧
    (table_optimization_agent invC1 reqAny).1.table_id ≠
      (table_optimization_agent (table_optimization_agent invC1 reqAny).2 reqAny).1.table_id ∧
    (table_optimization_agent invC1 reqAny).1.status = "confirmed" ∧
    (table_optimization_agent (table_optimization_agent invC1 reqAny).2 reqAny).1.status =
      "confirmed" := by decide

/-- C7 (amended): every allocation attempt creates exactly one outcome,
whose identifier is "R" (confirmed) or "W" (waitlisted) followed by the
pseudorandom number `randint(1000, 9999)` drawn at the call; identifiers
of distinct attempts are not guaranteed distinct. -/
theorem reservation_id_shape (s : SysState) (r : ReservationRequest) :
    1000 ≤ drawNum s ∧ drawNum s ≤ 9999 ∧
    (table_optimization_agent s r).1.reservation_id =
      (if (table_optimization_agent s r).1.status = "confirmed" then "R" else "W")
        ++ toString (drawNum s) := by
  refine ⟨by unfold drawNum; omega, ?_, ?_⟩
  · have hlt : s.draws s.didx % 9000 < 9000 :=
      Nat.mod_lt _ (by omega)
    unfold drawNum
    omega
  · cases hsc : sortedCandidates s.tables s.guests r with
    | nil =>
        rw [agent_eq_waitlisted hsc]
        rw [if_neg (by decide : ¬ ("waitlisted" : String) = "confirmed")]
    | cons it rest =>
        obtain ⟨i, t⟩ := it
        rw [agent_eq_confirmed hsc]
        rw [if_pos rfl]

/-! ## C8: the no-show predictor -/

def gAlice : GuestProfile :=
  { guest_id := "G123", name := "Alice", loyalty_status := "Gold",
    preferences := ["window", "vegetarian"],
    visit_history := ["2025-07-01", "2025-07-05"] }

def reqG123 : ReservationRequest :=
  { guest_id := "G123", party_size := 2, date := "2025-07-15", time := "19:00",
    channel := "web", table_type := "any" }

def invKnown : SysState :=
  { tables := [tWindow, tBooth], waitlist := [], guests := [("G123", gAlice)],
    draws := fun i => i, didx := 0 }

/-- C8 counterexample: calling `predict_no_show` on a guest present in the
directory consumes one shared random draw, so the next allocation's
outcome changes — its reservation identifier becomes "R1001" instead of
"R1000". -/
theorem predict_no_show_shifts_outcome_cex :
    (table_optimization_agent (predict_no_show invKnown "G123").2 reqG123).1 ≠
      (table_optimization_agent invKnown reqG123).1 ∧
    (table_optimization_agent (predict_no_show invKnown "G123").2 reqG123).1.reservation_id =
      "R1001" ∧
    (table_optimization_agent invKnown reqG123).1.reservation_id = "R1000" := by decide

theorem agent_ignores_didx (s : SysState) (n : Nat) (r : ReservationRequest) :
    (table_optimization_agent { s with didx := n } r).1.status =
      (table_optimization_agent s r).1.status ∧
    (table_optimization_agent { s with didx := n } r).1.table_id =
      (table_optimization_agent s r).1.table_id ∧
    (table_optimization_agent { s with didx := n } r).1.guest_id =
      (table_optimization_agent s r).1.guest_id ∧
    (table_optimization_agent { s with didx := n } r).1.reason =
      (table_optimization_agent s r).1.reason ∧
    (table_optimization_agent { s with didx := n } r).2.tables =
      (table_optimization_agent s r).2.tables ∧
    (table_optimization_agent { s with didx := n } r).2.waitlist =
      (table_optimization_agent s r).2.waitlist := by
  cases hsc : sortedCandidates s.tables s.guests r with
  | nil =>
      rw [agent_eq_waitlisted hsc, agent_eq_waitlisted (s := { s with didx := n }) hsc]
      exact ⟨rfl, rfl, rfl, rfl, rfl, rfl⟩
  | cons it rest =>
      obtain ⟨i, t⟩ := it
      rw [agent_eq_confirmed hsc, agent_eq_confirmed (s := { s with didx := n }) hsc]
      exact ⟨rfl, rfl, rfl, rfl, rfl, rfl⟩

/-- C8 (amended): `predict_no_show` is false exactly when the guest is
absent from the directory (otherwise one random draw decides it); it never
changes the inventory, the waitlist or the directory; and a subsequent
allocation is unchanged in its status, table selection, guest, reason and
resulting inventory and waitlist — only the pseudorandom reservation
identifier of that allocation can differ, because a known guest consumes
one shared random draw. -/
theorem predict_no_show_advisory (s : SysState) (gid : String)
    (r : ReservationRequest) :
    (predict_no_show s gid).1 =
      ((s.guests.lookup gid).isSome && decide (s.draws s.didx % 10 = 0)) ∧
    (predict_no_show s gid).2.tables = s.tables ∧
    (predict_no_show s gid).2.waitlist = s.waitlist ∧
    (predict_no_show s gid).2.guests = s.guests ∧
    (table_optimization_agent (predict_no_show s gid).2 r).1.status =
      (table_optimization_agent s r).1.status ∧
    (table_optimization_agent (predict_no_show s gid).2 r).1.table_id =
      (table_optimization_agent s r).1.table_id ∧
    (table_optimization_agent (predict_no_show s gid).2 r).1.guest_id =
      (table_optimization_agent s r).1.guest_id ∧
    (table_optimization_agent (predict_no_show s gid).2 r).1.reason =
      (table_optimization_agent s r).1.reason ∧
    (table_optimization_agent (predict_no_show s gid).2 r).2.tables =
      (table_optimization_agent s r).2.tables ∧
    (table_optimization_agent (predict_no_show s gid).2 r).2.waitlist =
      (table_optimization_agent s r).2.waitlist := by
  cases hg : s.guests.lookup gid with
  | none =>
      unfold predict_no_show
      rw [hg]
      exact ⟨rfl, rfl, rfl, rfl, rfl, rfl, rfl, rfl, rfl, rfl⟩
  | some g =>
      unfold predict_no_show
      rw [hg]
      exact ⟨rfl, rfl, rfl, rfl,
        (agent_ignores_didx s (s.didx + 1) r).1,
        (agent_ignores_didx s (s.didx + 1) r).2.1,
        (agent_ignores_didx s (s.didx + 1) r).2.2.1,
        (agent_ignores_didx s (s.didx + 1) r).2.2.2.1,
        (agent_ignores_didx s (s.didx + 1) r).2.2.2.2.1,
        (agent_ignores_didx s (s.didx + 1) r).2.2.2.2.2⟩

/-! ## C10: allocation ignores availability flags -/

/-- Two tables equal in everything except possibly `is_available`. -/
def tableEqExceptAvail (t u : Table) : Prop :=
  t.table_id = u.table_id ∧ t.seats = u.seats ∧ t.type = u.type ∧
    t.reserved_slots = u.reserved_slots

theorem eligible_eq_of_eqExceptAvail {t u : Table} {r : ReservationRequest}
    (h : tableEqExceptAvail t u) : eligibleTable r t = eligibleTable r u := by
  obtain ⟨h1, h2, h3, h4⟩ := h
  unfold eligibleTable is_conflict
  rw [h2, h3, h4]

theorem forall2_enumFrom {R : Table → Table → Prop} {T U : List Table}
    (h : List.Forall₂ R T U) : ∀ n,
    List.Forall₂ (fun it iu => it.1 = iu.1 ∧ R it.2 iu.2)
      (T.enumFrom n) (U.enumFrom n) := by
  induction h with
  | nil => intro n; exact List.Forall₂.nil
  | cons hab htail ih => intro n; exact List.Forall₂.cons ⟨rfl, hab⟩ (ih (n + 1))

theorem forall2_filter {α β : Type} {R : α → β → Prop} {p : α → Bool}
    {q : β → Bool} (hpq : ∀ a b, R a b → p a = q b) {l₁ : List α}
    {l₂ : List β} (h : List.Forall₂ R l₁ l₂) :
    List.Forall₂ R (l₁.filter p) (l₂.filter q) := by
  induction h with
  | nil => exact List.Forall₂.nil
  | cons hab htail ih =>
      rename_i a b l₁ l₂
      rw [List.filter_cons, List.filter_cons, ← hpq a b hab]
      cases hp : p a
      · simpa [hp] using ih
      · simpa [hp] using List.Forall₂.cons hab ih

theorem forall2_append {α β : Type} {R : α → β → Prop}
    {l₁ l₁' : List α} {l₂ l₂' : List β} (h : List.Forall₂ R l₁ l₂)
    (h' : List.Forall₂ R l₁' l₂') :
    List.Forall₂ R (l₁ ++ l₁') (l₂ ++ l₂') := by
  induction h with
  | nil => exact h'
  | cons hab htail ih => exact List.Forall₂.cons hab ih

theorem forall2_set {R : Table → Table → Prop} {T U : List Table}
    (h : List.Forall₂ R T U) {v w : Table} (hvw : R v w) :
    ∀ i, List.Forall₂ R (T.set i v) (U.set i w) := by
  induction h with
  | nil => intro i; exact List.Forall₂.nil
  | cons hab htail ih =>
      intro i
      cases i with
      | zero => exact List.Forall₂.cons hvw htail
      | succ n => exact List.Forall₂.cons hab (ih n)

theorem candidatePairs_eqExceptAvail {T U : List Table}
    {r : ReservationRequest} (h : List.Forall₂ tableEqExceptAvail T U) :
    List.Forall₂ (fun it iu => it.1 = iu.1 ∧ tableEqExceptAvail it.2 iu.2)
      (candidatePairs T r) (candidatePairs U r) := by
  unfold candidatePairs
  refine forall2_filter ?_ ?_
  · intro a b hab
    simpa using eligible_eq_of_eqExceptAvail (r := r) hab.2
  · simpa [List.enum] using forall2_enumFrom h 0

theorem sortedCandidates_eqExceptAvail {T U : List Table}
    {guests : List (String × GuestProfile)} {r : ReservationRequest}
    (h : List.Forall₂ tableEqExceptAvail T U) :
    List.Forall₂ (fun it iu => it.1 = iu.1 ∧ tableEqExceptAvail it.2 iu.2)
      (sortedCandidates T guests r) (sortedCandidates U guests r) := by
  unfold sortedCandidates
  have hc := candidatePairs_eqExceptAvail (r := r) h
  cases guests.lookup r.guest_id with
  | none => exact hc
  | some g =>
      by_cases hl : g.loyalty_status == "Gold"
      · simp only [hl, if_pos]
        unfold goldSort
        refine forall2_append (forall2_filter ?_ hc) (forall2_filter ?_ hc)
        · intro a b hab
          simp [hab.2.2.2.1]
        · intro a b hab
          simp [hab.2.2.2.1]
      · simp only [hl, Bool.false_eq_true, if_false]
        exact hc

/-- C10: table selection never reads `is_available`: on two inventories
identical except in their availability flags (and otherwise equal state),
allocation filters index-wise corresponding candidate sets, returns
literally the same outcome (same table identifier, status, identifier),
and produces inventories again identical except in availability flags,
with equal waitlists.  In particular a table flagged unavailable by an
earlier confirmation is still selectable for a free slot. -/
theorem allocation_ignores_availability (s u : SysState)
    (r : ReservationRequest)
    (hT : List.Forall₂ tableEqExceptAvail s.tables u.tables)
    (hW : s.waitlist = u.waitlist) (hG : s.guests = u.guests)
    (hD : s.draws = u.draws) (hI : s.didx = u.didx) :
    List.Forall₂ (fun it iu => it.1 = iu.1 ∧ tableEqExceptAvail it.2 iu.2)
      (sortedCandidates s.tables s.guests r)
      (sortedCandidates u.tables u.guests r) ∧
    (table_optimization_agent s r).1 = (table_optimization_agent u r).1 ∧
    List.Forall₂ tableEqExceptAvail
      (table_optimization_agent s r).2.tables
      (table_optimization_agent u r).2.tables ∧
    (table_optimization_agent s r).2.waitlist =
      (table_optimization_agent u r).2.waitlist := by
  have hsorted : List.Forall₂
      (fun it iu => it.1 = iu.1 ∧ tableEqExceptAvail it.2 iu.2)
      (sortedCandidates s.tables s.guests r)
      (sortedCandidates u.tables u.guests r) := by
    rw [hG]
    exact sortedCandidates_eqExceptAvail hT
  have hdraw : drawNum s = drawNum u := by
    unfold drawNum
    rw [hD, hI]
  refine ⟨hsorted, ?_⟩
  cases hs1 : sortedCandidates s.tables s.guests r with
  | nil =>
      rw [hs1] at hsorted
      have hu1 : sortedCandidates u.tables u.guests r = [] :=
        List.forall₂_nil_left_iff.1 hsorted
      rw [agent_eq_waitlisted hs1, agent_eq_waitlisted hu1]
      refine ⟨?_, hT, ?_⟩
      · rw [hdraw]
      · rw [hW]
  | cons it rest =>
      obtain ⟨i, t⟩ := it
      rw [hs1] at hsorted
      obtain ⟨iu, rest', hrel, htail, hu1⟩ := List.forall₂_cons_left_iff.1 hsorted
      obtain ⟨i', t'⟩ := iu
      have hieq : i = i' := hrel.1
      have htrel : tableEqExceptAvail t t' := hrel.2
      rw [agent_eq_confirmed hs1, agent_eq_confirmed hu1]
      refine ⟨?_, ?_, ?_⟩
      · rw [hdraw, htrel.1]
      · subst hieq
        have hcommit : tableEqExceptAvail
            (commitSlot t (r.date ++ " " ++ r.time))
            (commitSlot t' (r.date ++ " " ++ r.time)) :=
          ⟨htrel.1, htrel.2.1, htrel.2.2.1, by
            simp [commitSlot, htrel.2.2.2]⟩
        exact forall2_set hT hcommit i
      · rw [hW]

def invUnavail : SysState :=
  { tables := [{ tWindow with is_available := false },
               { tBooth with is_available := false }],
    waitlist := [], guests := [], draws := fun _ => 0, didx := 0 }

/-- Witness for C10: an inventory whose tables are all flagged unavailable
behaves exactly like the same inventory with the flags set. -/
theorem allocation_ignores_availability_witness :
    List.Forall₂ (fun it iu => it.1 = iu.1 ∧ tableEqExceptAvail it.2 iu.2)
      (sortedCandidates invC1.tables invC1.guests reqAny)
      (sortedCandidates invUnavail.tables invUnavail.guests reqAny) ∧
    (table_optimization_agent invC1 reqAny).1 =
      (table_optimization_agent invUnavail reqAny).1 ∧
    List.Forall₂ tableEqExceptAvail
      (table_optimization_agent invC1 reqAny).2.tables
      (table_optimization_agent invUnavail reqAny).2.tables ∧
    (table_optimization_agent invC1 reqAny).2.waitlist =
      (table_optimization_agent invUnavail reqAny).2.waitlist :=
  allocation_ignores_availability invC1 invUnavail reqAny
    (List.Forall₂.cons ⟨rfl, rfl, rfl, rfl⟩
      (List.Forall₂.cons ⟨rfl, rfl, rfl, rfl⟩ List.Forall₂.nil))
    rfl rfl rfl rfl

end DineIn
